import Mathlib

/-!
Shallow embedding of the `fd` package (`fd.go`): passing file descriptors
over a Unix domain socket via SCM_RIGHTS control messages.

The package calls into Go's `syscall` package; the control-message codec
(`CmsgSpace`, `CmsgLen`, `UnixRights`, `ParseSocketControlMessage`,
`ParseUnixRights`) is embedded here byte-for-byte from
`syscall/sockcmsg_unix.go` / `sockcmsg_linux.go` for linux/amd64
(little-endian, 8-byte alignment, 16-byte `Cmsghdr`, `SOL_SOCKET = 1`,
`SCM_RIGHTS = 1`).

Bytes are modelled as `List Nat` (each entry < 256 in every buffer the
code builds).  The OS side of `Get`/`Put` (obtaining the connection's
file, the recvmsg/sendmsg syscalls) is passed in as explicit results, and
each operation also returns a trace of the external effects it performed,
in program order, so that no-syscall / close-the-duplicate claims are
statable.
-/

namespace Fd

/-- Errors surfaced by the embedded syscall layer: `EINVAL` from
control-message parsing, or an arbitrary OS error (from `via.File()`,
`Recvmsg` or `Sendmsg`), identified by a numeric code. -/
inductive GoError where
  | einval : GoError
  | os : Nat → GoError
  deriving DecidableEq, Repr

/-- External effects performed by `Get`/`Put`, in program order:
`fileCall` is `via.File()` (duplicating the connection's descriptor),
`allocBuf` is `make([]byte, n)`, `recvCall`/`sendCall` are the syscalls,
`closeDup` is the deferred `viaf.Close()`, and `closeConn` would be a
close of the original connection (never emitted by this code). -/
inductive Effect where
  | fileCall : Effect
  | allocBuf : Nat → Effect
  | recvCall : Effect
  | sendCall : Effect
  | closeDup : Effect
  | closeConn : Effect
  deriving DecidableEq, Repr

/-- Model of `*os.File` as produced by `os.NewFile(uintptr(fd), filename)`:
a raw descriptor value plus a name. -/
structure Handle where
  fd : Int
  name : String
  deriving DecidableEq, Repr

/-- Model of Go's `syscall.Cmsghdr` on linux/amd64: `Len : uint64`,
`Level : int32`, `Type : int32` (the two int32 fields are stored as their
32-bit patterns). -/
structure Cmsghdr where
  len : Nat
  level : Nat
  typ : Nat
  deriving DecidableEq, Repr

/-- Model of Go's `syscall.SocketControlMessage`: a header plus the data
bytes. -/
structure SocketControlMessage where
  header : Cmsghdr
  data : List Nat
  deriving DecidableEq, Repr

/-- Result of `Get`: the returned `[]*os.File`, the returned error, and
the trace of external effects performed. -/
structure GetResult where
  files : List Handle
  err : Option GoError
  trace : List Effect
  deriving DecidableEq, Repr

/-- Result of `Put`: the returned error, the trace of external effects,
and the ancillary bytes handed to `Sendmsg` (if the send was reached). -/
structure PutResult where
  err : Option GoError
  trace : List Effect
  sent : Option (List Nat)
  deriving DecidableEq, Repr

/-- `syscall.SOL_SOCKET` on Linux. -/
def SOL_SOCKET : Nat := 1

/-- `syscall.SCM_RIGHTS` on Linux. -/
def SCM_RIGHTS : Nat := 1

/-- `cmsgAlignOf` from `syscall/sockcmsg_unix.go` on linux/amd64:
round up to the 8-byte pointer size, `(salen + 7) &^ 7`. -/
def cmsgAlignOf (salen : Nat) : Nat := (salen + 7) / 8 * 8

/-- `syscall.CmsgLen(datalen) = cmsgAlignOf(SizeofCmsghdr) + datalen`
with `SizeofCmsghdr = 16` on linux/amd64. -/
def CmsgLen (datalen : Nat) : Nat := cmsgAlignOf 16 + datalen

/-- `syscall.CmsgSpace(datalen) = cmsgAlignOf(SizeofCmsghdr) +
cmsgAlignOf(datalen)`. -/
def CmsgSpace (datalen : Nat) : Nat := cmsgAlignOf 16 + cmsgAlignOf datalen

/-- The receive-buffer size `Get` allocates at `fd.go:49`:
`syscall.CmsgSpace(num * 4)` — note the hardcoded 4 bytes per
descriptor. -/
def bufferSizeForCode (num : Nat) : Nat := CmsgSpace (num * 4)

/-- Modelled from the spec: `BufferSizeFor(n)` as §4.1/§9 of the spec
demand it, computed from the target platform's actual per-descriptor
on-wire width `descSize` (the platform's descriptor integer size, which
is not part of this repository's source): `CmsgSpace(n * descSize)`. -/
def bufferSizeForSpec (descSize num : Nat) : Nat := CmsgSpace (num * descSize)

/-- Read a little-endian `uint32` from bytes `b[i..i+3]` (out-of-range
reads give 0; every read the embedded code performs is in range). -/
def getU32LE (b : List Nat) (i : Nat) : Nat :=
  b.getD i 0 + b.getD (i + 1) 0 * 256 + b.getD (i + 2) 0 * 65536 +
    b.getD (i + 3) 0 * 16777216

/-- Read a little-endian `uint64` from bytes `b[i..i+7]`. -/
def getU64LE (b : List Nat) (i : Nat) : Nat :=
  getU32LE b i + getU32LE b (i + 4) * 4294967296

/-- Little-endian bytes of a `uint32` value. -/
def putU32LE (v : Nat) : List Nat :=
  [v % 256, v / 256 % 256, v / 65536 % 256, v / 16777216 % 256]

/-- Little-endian bytes of a `uint64` value. -/
def putU64LE (v : Nat) : List Nat :=
  putU32LE (v % 4294967296) ++ putU32LE (v / 4294967296)

/-- The 4 bytes `UnixRights` stores for one descriptor:
`*(*int32)(...) = int32(fd)`, i.e. the little-endian bytes of
`fd mod 2^32`. -/
def int32Bytes (fd : Int) : List Nat := putU32LE (fd.emod 4294967296).toNat

/-- Reinterpret a 32-bit pattern as Go's `int(int32(u))`. -/
def toInt32 (u : Nat) : Int :=
  if u < 2147483648 then (u : Int) else (u : Int) - 4294967296

/-- The data section `UnixRights` writes: each descriptor as an `int32`,
in order, at offsets 0, 4, 8, ... -/
def encodeFds : List Int → List Nat
  | [] => []
  | fd :: rest => int32Bytes fd ++ encodeFds rest

/-- `syscall.UnixRights(fds...)`: a buffer of `CmsgSpace(4*len(fds))`
bytes holding one `Cmsghdr` (`Len = CmsgLen(4*len(fds))`,
`Level = SOL_SOCKET`, `Type = SCM_RIGHTS`) followed by the descriptors
as `int32`s; the remaining alignment padding stays zero. -/
def UnixRights (fds : List Int) : List Nat :=
  putU64LE (CmsgLen (4 * fds.length)) ++ (putU32LE SOL_SOCKET ++ (putU32LE SCM_RIGHTS ++
    (encodeFds fds ++
      List.replicate (CmsgSpace (4 * fds.length) - CmsgLen (4 * fds.length)) 0)))

/-- Go slice `b[i:j]`. -/
def slice (b : List Nat) (i j : Nat) : List Nat := (b.drop i).take (j - i)

/-- The loop of `syscall.ParseSocketControlMessage`, fuelled (each
iteration advances `i` by at least 16, so `b.length + 1` fuel always
suffices).  At offset `i` it reads `h.Len`; a `Len` below
`SizeofCmsghdr = 16` or beyond the remaining bytes is `EINVAL`, and an
error discards all messages (the Go function returns `nil, err`). -/
def parseSCMAux : Nat → List Nat → Nat → Except GoError (List SocketControlMessage)
  | 0, _, _ => .error .einval
  | fuel + 1, b, i =>
    if i + 16 ≤ b.length then
      if getU64LE b i < 16 ∨ getU64LE b i > b.length - i then .error .einval
      else
        match parseSCMAux fuel b (i + cmsgAlignOf (getU64LE b i)) with
        | .error e => .error e
        | .ok rest =>
          .ok (⟨⟨getU64LE b i, getU32LE b (i + 8), getU32LE b (i + 12)⟩,
                slice b (i + 16) (i + getU64LE b i)⟩ :: rest)
    else .ok []

/-- `syscall.ParseSocketControlMessage(b)`. -/
def ParseSocketControlMessage (b : List Nat) : Except GoError (List SocketControlMessage) :=
  parseSCMAux (b.length + 1) b 0

/-- `syscall.ParseUnixRights(m)`: `EINVAL` unless the message is
`SOL_SOCKET`/`SCM_RIGHTS`; otherwise decode `len(Data) >> 2` descriptors,
reading an `int32` at each offset `4*j`. -/
def ParseUnixRights (m : SocketControlMessage) : Except GoError (List Int) :=
  if m.header.level ≠ SOL_SOCKET then .error .einval
  else if m.header.typ ≠ SCM_RIGHTS then .error .einval
  else .ok ((List.range (m.data.length / 4)).map fun j => toInt32 (getU32LE m.data (4 * j)))

/-- The descriptor list a message yields when `ParseUnixRights` succeeds
(empty on failure); used only to state properties. -/
def rightsOf (m : SocketControlMessage) : List Int :=
  match ParseUnixRights m with
  | .ok l => l
  | .error _ => []

/-- The inner loop of `Get` (`fd.go:65-72`): wrap each descriptor of one
message, pairing the `fi`-th descriptor of the message with
`filenames[fi]` when `fi < len(filenames)` and with `""` otherwise. -/
def nameFds (fds : List Int) (filenames : List String) (fi : Nat) : List Handle :=
  match fds with
  | [] => []
  | fd :: rest =>
    ⟨fd, if h : fi < filenames.length then filenames.get ⟨fi, h⟩ else ""⟩ ::
      nameFds rest filenames (fi + 1)

/-- The outer loop of `Get` (`fd.go:61-73`): iterate over the parsed
messages while `err == nil`; on a `ParseUnixRights` failure no handles
are appended for that message and the loop stops with the error;
handles already accumulated are kept. -/
def getLoop : List SocketControlMessage → List String → List Handle × Option GoError
  | [], _ => ([], none)
  | m :: rest, filenames =>
    match ParseUnixRights m with
    | .error e => ([], some e)
    | .ok fds =>
      let hs := nameFds fds filenames 0
      let r := getLoop rest filenames
      (hs ++ r.1, r.2)

/-- The byte buffer `Get` ends up parsing: `buf` is allocated zeroed with
`make([]byte, CmsgSpace(num*4))`, `Recvmsg` writes the delivered
ancillary bytes `oob` into its prefix (at most `len(buf)` bytes), and the
code parses all of `buf` (ignoring the returned `oobn`), so the
unwritten tail stays zero. -/
def recvBuf (num : Int) (oob : List Nat) : List Nat :=
  let bufSize := bufferSizeForCode num.toNat
  let delivered := oob.take bufSize
  delivered ++ List.replicate (bufSize - delivered.length) 0

/-- `Get(via, num, filenames)` from `fd.go:35-76`.  `fileRes` is the
outcome of `via.File()` and `recvRes` the outcome of the `Recvmsg`
syscall (on success, the delivered ancillary bytes). -/
def Get (num : Int) (filenames : List String) (fileRes : Except GoError Unit)
    (recvRes : Except GoError (List Nat)) : GetResult :=
  if num < 1 then ⟨[], none, []⟩
  else
    match fileRes with
    | .error e => ⟨[], some e, [.fileCall]⟩
    | .ok _ =>
      let bufSize := bufferSizeForCode num.toNat
      match recvRes with
      | .error e => ⟨[], some e, [.fileCall, .allocBuf bufSize, .recvCall, .closeDup]⟩
      | .ok oob =>
        match ParseSocketControlMessage (recvBuf num oob) with
        | .error e => ⟨[], some e, [.fileCall, .allocBuf bufSize, .recvCall, .closeDup]⟩
        | .ok msgs =>
          let r := getLoop msgs filenames
          ⟨r.1, r.2, [.fileCall, .allocBuf bufSize, .recvCall, .closeDup]⟩

/-- `Put(via, files...)` from `fd.go:83-102`.  `fileRes` is the outcome
of `via.File()` and `sendRes` the outcome of the `Sendmsg` syscall. -/
def Put (files : List Handle) (fileRes : Except GoError Unit)
    (sendRes : Option GoError) : PutResult :=
  if files.length = 0 then ⟨none, [], none⟩
  else
    match fileRes with
    | .error e => ⟨some e, [.fileCall], none⟩
    | .ok _ =>
      let rights := UnixRights (files.map fun f => f.fd)
      ⟨sendRes, [.fileCall, .sendCall, .closeDup], some rights⟩

/-- Test fixture: a 24-byte control message whose header has
`Level = 2 ≠ SOL_SOCKET` (so `ParseUnixRights` rejects it), with a
4-byte payload. -/
def badLevelMsgBytes : List Nat :=
  [20, 0, 0, 0, 0, 0, 0, 0, 2, 0, 0, 0, 1, 0, 0, 0, 9, 0, 0, 0, 0, 0, 0, 0]

/-- Test fixture: a 24-byte control message whose header has
`Type = 2 ≠ SCM_RIGHTS` (so `ParseUnixRights` rejects it), with a
4-byte payload. -/
def badTypeMsgBytes : List Nat :=
  [20, 0, 0, 0, 0, 0, 0, 0, 1, 0, 0, 0, 2, 0, 0, 0, 9, 0, 0, 0, 0, 0, 0, 0]

end Fd

/-! ## Helper lemmas -/

namespace Fd

theorem le_cmsgAlignOf (d : Nat) : d ≤ cmsgAlignOf d := by
  unfold cmsgAlignOf; omega

theorem cmsgAlignOf_sixteen_add (d : Nat) : cmsgAlignOf (16 + d) = 16 + cmsgAlignOf d := by
  unfold cmsgAlignOf; omega

theorem encodeFds_length (fds : List Int) : (encodeFds fds).length = 4 * fds.length := by
  induction fds with
  | nil => rfl
  | cons fd rest ih =>
    simp [encodeFds, int32Bytes, putU32LE, ih]
    omega

theorem UnixRights_length (fds : List Int) :
    (UnixRights fds).length = CmsgSpace (4 * fds.length) := by
  have h := le_cmsgAlignOf (4 * fds.length)
  simp [UnixRights, putU64LE, putU32LE, encodeFds_length, CmsgSpace, CmsgLen, cmsgAlignOf] at *
  omega

theorem getU64LE_put (L : Nat) (rest : List Nat) (h : L < 18446744073709551616) :
    getU64LE (putU64LE L ++ rest) 0 = L := by
  have e : getU64LE (putU64LE L ++ rest) 0 =
      L % 4294967296 % 256 + L % 4294967296 / 256 % 256 * 256 +
        L % 4294967296 / 65536 % 256 * 65536 +
        L % 4294967296 / 16777216 % 256 * 16777216 +
        (L / 4294967296 % 256 + L / 4294967296 / 256 % 256 * 256 +
          L / 4294967296 / 65536 % 256 * 65536 +
          L / 4294967296 / 16777216 % 256 * 16777216) * 4294967296 := rfl
  rw [e]; omega

theorem parseSCMAux_stop (fuel : Nat) (b : List Nat) (i : Nat) (hf : fuel ≠ 0)
    (hi : b.length < i + 16) : parseSCMAux fuel b i = .ok [] := by
  cases fuel with
  | zero => exact absurd rfl hf
  | succ n =>
    rw [parseSCMAux]
    rw [if_neg (by omega)]

end Fd

namespace Fd

theorem getU32LE_UnixRights_eight (fds : List Int) : getU32LE (UnixRights fds) 8 = 1 := by
  simp [UnixRights, putU64LE, putU32LE, getU32LE, SOL_SOCKET, SCM_RIGHTS,
    List.cons_append, List.nil_append, List.getD_cons_zero, List.getD_cons_succ]

theorem getU32LE_UnixRights_twelve (fds : List Int) : getU32LE (UnixRights fds) 12 = 1 := by
  simp [UnixRights, putU64LE, putU32LE, getU32LE, SOL_SOCKET, SCM_RIGHTS,
    List.cons_append, List.nil_append, List.getD_cons_zero, List.getD_cons_succ]

theorem UnixRights_drop_sixteen (fds : List Int) :
    (UnixRights fds).drop 16 =
      encodeFds fds ++
        List.replicate (CmsgSpace (4 * fds.length) - CmsgLen (4 * fds.length)) 0 := by
  simp [UnixRights, putU64LE, putU32LE, List.cons_append, List.nil_append,
    List.drop_succ_cons, List.drop_zero]

theorem getU64LE_UnixRights (fds : List Int)
    (h : CmsgLen (4 * fds.length) < 18446744073709551616) :
    getU64LE (UnixRights fds) 0 = CmsgLen (4 * fds.length) :=
  getU64LE_put (CmsgLen (4 * fds.length)) _ h

theorem slice_UnixRights (fds : List Int) :
    slice (UnixRights fds) 16 (CmsgLen (4 * fds.length)) = encodeFds fds := by
  unfold slice
  rw [UnixRights_drop_sixteen]
  have h416 : CmsgLen (4 * fds.length) - 16 = 4 * fds.length := by
    simp [CmsgLen, cmsgAlignOf]
  rw [h416]
  exact List.take_left' (encodeFds_length fds)

theorem parse_UnixRights (fds : List Int)
    (h : CmsgLen (4 * fds.length) < 18446744073709551616) :
    ParseSocketControlMessage (UnixRights fds) =
      .ok [⟨⟨CmsgLen (4 * fds.length), 1, 1⟩, encodeFds fds⟩] := by
  have hlen : (UnixRights fds).length = CmsgSpace (4 * fds.length) := UnixRights_length fds
  have hspace : CmsgSpace (4 * fds.length) =
      16 + cmsgAlignOf (4 * fds.length) := by simp [CmsgSpace, cmsgAlignOf]
  have hL : CmsgLen (4 * fds.length) = 16 + 4 * fds.length := by simp [CmsgLen, cmsgAlignOf]
  have halign : 4 * fds.length ≤ cmsgAlignOf (4 * fds.length) := le_cmsgAlignOf _
  have hstep : cmsgAlignOf (CmsgLen (4 * fds.length)) = CmsgSpace (4 * fds.length) := by
    rw [hL, hspace]
    exact cmsgAlignOf_sixteen_add _
  unfold ParseSocketControlMessage
  rw [parseSCMAux]
  rw [if_pos (by rw [hlen]; omega)]
  rw [getU64LE_UnixRights fds h]
  rw [if_neg (by rw [hlen]; omega)]
  rw [parseSCMAux_stop ((UnixRights fds).length) (UnixRights fds)
        (0 + cmsgAlignOf (CmsgLen (4 * fds.length)))
        (by rw [hlen, hspace]; omega)
        (by rw [hlen, hstep]; omega)]
  simp only [Nat.zero_add]
  rw [getU32LE_UnixRights_eight, getU32LE_UnixRights_twelve, slice_UnixRights]

end Fd
namespace Fd

theorem getU32LE_cons_add_four (a b c d : Nat) (l : List Nat) (n : Nat) :
    getU32LE (a :: b :: c :: d :: l) (n + 4) = getU32LE l n := by
  simp [getU32LE, List.getD_cons_succ]

theorem int32Bytes_toNat_lt (fd : Int) : (fd.emod 4294967296).toNat < 4294967296 := by
  have h1 : fd.emod 4294967296 < 4294967296 :=
    Int.emod_lt_of_pos fd (by norm_num)
  have h2 : 0 ≤ fd.emod 4294967296 := Int.emod_nonneg fd (by norm_num)
  omega

theorem getU32LE_encodeFds (fds : List Int) (j : Nat) (hj : j < fds.length) :
    getU32LE (encodeFds fds) (4 * j) = ((fds.getD j 0).emod 4294967296).toNat := by
  induction fds generalizing j with
  | nil => simp at hj
  | cons fd rest ih =>
    cases j with
    | zero =>
      have hu := int32Bytes_toNat_lt fd
      have e : getU32LE (encodeFds (fd :: rest)) (4 * 0) =
          (fd.emod 4294967296).toNat % 256 +
            (fd.emod 4294967296).toNat / 256 % 256 * 256 +
            (fd.emod 4294967296).toNat / 65536 % 256 * 65536 +
            (fd.emod 4294967296).toNat / 16777216 % 256 * 16777216 := rfl
      rw [e, List.getD_cons_zero]
      omega
    | succ j =>
      have hstep : getU32LE (encodeFds (fd :: rest)) (4 * (j + 1)) =
          getU32LE (encodeFds rest) (4 * j) := by
        have h4 : 4 * (j + 1) = 4 * j + 4 := by omega
        rw [h4]
        show getU32LE (int32Bytes fd ++ encodeFds rest) (4 * j + 4) = _
        simp only [int32Bytes, putU32LE, List.cons_append, List.nil_append]
        exact getU32LE_cons_add_four _ _ _ _ _ _
      rw [hstep, List.getD_cons_succ]
      exact ih j (by simpa using hj)

end Fd
namespace Fd

theorem PUR_encode (fds : List Int) (L : Nat)
    (hb : ∀ fd ∈ fds, 0 ≤ fd ∧ fd < 2147483648) :
    ParseUnixRights ⟨⟨L, 1, 1⟩, encodeFds fds⟩ = .ok fds := by
  unfold ParseUnixRights
  rw [if_neg (by simp [SOL_SOCKET])]
  rw [if_neg (by simp [SCM_RIGHTS])]
  congr 1
  have hlen : (encodeFds fds).length / 4 = fds.length := by
    rw [encodeFds_length]; omega
  rw [hlen]
  apply List.ext_getElem (by simp)
  intro j h1 h2
  simp only [List.getElem_map, List.getElem_range]
  have hj : j < fds.length := by simpa using h2
  have hread := getU32LE_encodeFds fds j hj
  have hfd := hb (fds.getD j 0) (by
    have := List.getD_eq_getElem fds 0 hj
    rw [this]
    exact List.getElem_mem _)
  have hmod : (fds.getD j 0).emod 4294967296 = fds.getD j 0 :=
    Int.emod_eq_of_lt hfd.1 (by omega)
  have hton : ((fds.getD j 0).emod 4294967296).toNat < 2147483648 := by
    rw [hmod]
    exact (Int.toNat_lt hfd.1).2 hfd.2
  rw [hread]
  unfold toInt32
  rw [if_pos hton]
  rw [hmod]
  rw [Int.toNat_of_nonneg hfd.1]
  exact List.getD_eq_getElem fds 0 hj

end Fd
namespace Fd

theorem nameFds_length (fds : List Int) (fn : List String) (k : Nat) :
    (nameFds fds fn k).length = fds.length := by
  induction fds generalizing k with
  | nil => rfl
  | cons fd rest ih => simp [nameFds, ih]

theorem nameFds_map_fd (fds : List Int) (fn : List String) (k : Nat) :
    (nameFds fds fn k).map (fun h => h.fd) = fds := by
  induction fds generalizing k with
  | nil => rfl
  | cons fd rest ih => simp [nameFds, ih]

theorem dite_name_eq_getD (fn : List String) (i : Nat) :
    (if h : i < fn.length then fn.get ⟨i, h⟩ else "") = fn.getD i "" := by
  split
  next h => rw [List.getD_eq_getElem fn "" h]; rfl
  next h => rw [List.getD_eq_default fn "" (by omega)]

theorem nameFds_eq_range (fds : List Int) (fn : List String) (k : Nat) :
    nameFds fds fn k =
      (List.range fds.length).map fun j => ⟨fds.getD j 0, fn.getD (k + j) ""⟩ := by
  induction fds generalizing k with
  | nil => rfl
  | cons fd rest ih =>
    show (⟨fd, if h : k < fn.length then fn.get ⟨k, h⟩ else ""⟩ : Handle) ::
        nameFds rest fn (k + 1) = _
    rw [dite_name_eq_getD, ih (k + 1)]
    rw [List.length_cons, List.range_succ_eq_map]
    simp only [List.map_cons, List.map_map, List.getD_cons_zero, Nat.add_zero]
    congr 1
    apply List.map_congr_left
    intro j hj
    simp only [Function.comp_apply, Nat.succ_eq_add_one, List.getD_cons_succ]
    have h3 : k + (j + 1) = k + 1 + j := by omega
    rw [h3]

theorem rightsOf_ok {m : SocketControlMessage} {l : List Int}
    (h : ParseUnixRights m = .ok l) : rightsOf m = l := by
  simp [rightsOf, h]

theorem getLoop_all_ok (msgs : List SocketControlMessage) (fn : List String)
    (hok : ∀ m ∈ msgs, ∃ l, ParseUnixRights m = .ok l) :
    getLoop msgs fn = ((msgs.map fun m => nameFds (rightsOf m) fn 0).flatten, none) := by
  induction msgs with
  | nil => rfl
  | cons m rest ih =>
    obtain ⟨l, hl⟩ := hok m (by simp)
    have hr := rightsOf_ok hl
    have ihh := ih fun x hx => hok x (by simp [hx])
    simp [getLoop, hl, hr, ihh]

theorem getLoop_append_err (pre : List SocketControlMessage) (m : SocketControlMessage)
    (post : List SocketControlMessage) (fn : List String) (e : GoError)
    (hpre : ∀ m2 ∈ pre, ∃ l, ParseUnixRights m2 = .ok l)
    (hm : ParseUnixRights m = .error e) :
    getLoop (pre ++ m :: post) fn =
      ((pre.map fun m2 => nameFds (rightsOf m2) fn 0).flatten, some e) := by
  induction pre with
  | nil => simp [getLoop, hm]
  | cons m2 pre ih =>
    obtain ⟨l, hl⟩ := hpre m2 (by simp)
    have hr := rightsOf_ok hl
    have ihh := ih fun x hx => hpre x (by simp [hx])
    simp [getLoop, hl, hr, ihh]

theorem PUR_nonrights (m : SocketControlMessage)
    (h : m.header.level ≠ SOL_SOCKET ∨ m.header.typ ≠ SCM_RIGHTS) :
    ParseUnixRights m = .error .einval := by
  unfold ParseUnixRights
  rcases h with h | h
  · rw [if_pos h]
  · by_cases hl : m.header.level = SOL_SOCKET
    · rw [if_neg (by simpa using hl), if_pos h]
    · rw [if_pos hl]

theorem recvBuf_eq (num : Int) (oob : List Nat)
    (h : oob.length = bufferSizeForCode num.toNat) : recvBuf num oob = oob := by
  simp [recvBuf, ← h, List.take_length, Nat.sub_self]

theorem Get_ok_parse (num : Int) (fn : List String) (oob : List Nat)
    (msgs : List SocketControlMessage) (h1 : 1 ≤ num)
    (hp : ParseSocketControlMessage (recvBuf num oob) = .ok msgs) :
    Get num fn (.ok ()) (.ok oob) =
      ⟨(getLoop msgs fn).1, (getLoop msgs fn).2,
        [.fileCall, .allocBuf (bufferSizeForCode num.toNat), .recvCall, .closeDup]⟩ := by
  unfold Get
  rw [if_neg (by omega)]
  simp only [hp]

end Fd
namespace Fd

theorem get_trace_cases (num : Int) (fn : List String) (fr : Except GoError Unit)
    (rr : Except GoError (List Nat)) :
    (Get num fn fr rr).trace = [] ∨ (Get num fn fr rr).trace = [.fileCall] ∨
      (Get num fn fr rr).trace =
        [.fileCall, .allocBuf (bufferSizeForCode num.toNat), .recvCall, .closeDup] := by
  unfold Get
  by_cases h0 : num < 1
  · rw [if_pos h0]; left; rfl
  · rw [if_neg h0]
    rcases fr with e | u
    · right; left; rfl
    · rcases rr with e | oob
      · right; right; rfl
      · cases hp : ParseSocketControlMessage (recvBuf num oob) with
        | error e => simp [hp]
        | ok msgs => simp [hp]

theorem get_count_recv (num : Int) (fn : List String) (fr : Except GoError Unit)
    (rr : Except GoError (List Nat)) :
    ((Get num fn fr rr).trace).count Effect.recvCall ≤ 1 := by
  rcases get_trace_cases num fn fr rr with h | h | h
  · rw [h]; decide
  · rw [h]; decide
  · rw [h]
    have e : List.count Effect.recvCall
        [Effect.fileCall, Effect.allocBuf (bufferSizeForCode num.toNat),
          Effect.recvCall, Effect.closeDup] = 1 := rfl
    omega

theorem get_closeDup (num : Int) (fn : List String) (rr : Except GoError (List Nat))
    (h : 1 ≤ num) : Effect.closeDup ∈ (Get num fn (.ok ()) rr).trace := by
  unfold Get
  rw [if_neg (by omega)]
  rcases rr with e | oob
  · simp
  · cases hp : ParseSocketControlMessage (recvBuf num oob) with
    | error e => simp [hp]
    | ok msgs => simp [hp]

theorem get_no_closeConn (num : Int) (fn : List String) (fr : Except GoError Unit)
    (rr : Except GoError (List Nat)) :
    Effect.closeConn ∉ (Get num fn fr rr).trace := by
  rcases get_trace_cases num fn fr rr with h | h | h <;> rw [h] <;> simp

theorem put_trace_cases (files : List Handle) (fr : Except GoError Unit)
    (sr : Option GoError) :
    (Put files fr sr).trace = [] ∨ (Put files fr sr).trace = [.fileCall] ∨
      (Put files fr sr).trace = [.fileCall, .sendCall, .closeDup] := by
  unfold Put
  by_cases h0 : files.length = 0
  · rw [if_pos h0]; left; rfl
  · rw [if_neg h0]
    rcases fr with e | u
    · right; left; rfl
    · right; right; rfl

theorem put_count_send (files : List Handle) (fr : Except GoError Unit)
    (sr : Option GoError) :
    ((Put files fr sr).trace).count Effect.sendCall ≤ 1 := by
  rcases put_trace_cases files fr sr with h | h | h <;> rw [h] <;> decide

theorem put_closeDup (files : List Handle) (sr : Option GoError) (h : files ≠ []) :
    Effect.closeDup ∈ (Put files (.ok ()) sr).trace := by
  unfold Put
  rw [if_neg fun hc => h (List.length_eq_zero.mp hc)]
  simp

theorem put_no_closeConn (files : List Handle) (fr : Except GoError Unit)
    (sr : Option GoError) :
    Effect.closeConn ∉ (Put files fr sr).trace := by
  rcases put_trace_cases files fr sr with h | h | h <;> rw [h] <;> simp

end Fd

/-! ## Claim theorems -/

namespace Fd

/-- Claim C3: the claim says `Get` sizes its receive buffer from the
platform's actual per-descriptor width; the code (`fd.go:49`) hardcodes
4 bytes per descriptor.  At `count = 2` on a platform whose descriptor
width is 8 bytes the two differ (24 vs 32 bytes), while they coincide
when the width is 4; `Get` really allocates `bufferSizeForCode`. -/
theorem fd_c3_hardcoded_width :
    bufferSizeForCode 2 = 24 ∧
    bufferSizeForSpec 8 2 = 32 ∧
    bufferSizeForCode 2 ≠ bufferSizeForSpec 8 2 ∧
    bufferSizeForSpec 4 2 = bufferSizeForCode 2 ∧
    (Get 2 [] (.ok ()) (.error (.os 11))).trace =
      [.fileCall, .allocBuf (bufferSizeForCode 2), .recvCall, .closeDup] := by
  refine ⟨rfl, rfl, by decide, rfl, rfl⟩

/-- Claim C5: for `num < 1`, `Get` returns an empty result and nil error
with an empty effect trace — no `via.File()` call, no buffer
allocation, no receive syscall. -/
theorem fd_c5_zero_count_noop (num : Int) (fn : List String) (fr : Except GoError Unit)
    (rr : Except GoError (List Nat)) (h : num < 1) :
    Get num fn fr rr = ⟨[], none, []⟩ := by
  unfold Get
  rw [if_pos h]

/-- Witness for C5 at `num = 0` and a negative `num`. -/
theorem fd_c5_zero_count_noop_witness :
    Get 0 [] (.ok ()) (.ok []) = ⟨[], none, []⟩ ∧
      Get (-3) ["x"] (.error .einval) (.error (.os 11)) = ⟨[], none, []⟩ :=
  ⟨fd_c5_zero_count_noop 0 [] (.ok ()) (.ok []) (by norm_num),
    fd_c5_zero_count_noop (-3) ["x"] (.error .einval) (.error (.os 11)) (by norm_num)⟩

/-- Claim C6: `Put` with no files returns a nil error immediately, with
an empty effect trace (no send syscall, no `via.File()` call) and
nothing sent. -/
theorem fd_c6_zero_files_noop (fr : Except GoError Unit) (sr : Option GoError) :
    Put [] fr sr = ⟨none, [], none⟩ := rfl

/-- Claim C7: whenever `via.File()` succeeds (and the operation gets past
its fast path), the deferred close of the duplicate appears in the
trace on every exit path, and neither operation ever closes the
original connection. -/
theorem fd_c7_dup_closed (num : Int) (fn : List String) (fr : Except GoError Unit)
    (rr : Except GoError (List Nat)) (files : List Handle) (sr : Option GoError) :
    (fr = .ok () → 1 ≤ num → Effect.closeDup ∈ (Get num fn fr rr).trace) ∧
    Effect.closeConn ∉ (Get num fn fr rr).trace ∧
    (fr = .ok () → files ≠ [] → Effect.closeDup ∈ (Put files fr sr).trace) ∧
    Effect.closeConn ∉ (Put files fr sr).trace := by
  refine ⟨?_, get_no_closeConn num fn fr rr, ?_, put_no_closeConn files fr sr⟩
  · intro hfr h1
    subst hfr
    exact get_closeDup num fn rr h1
  · intro hfr hne
    subst hfr
    exact put_closeDup files sr hne

/-- Witness for C7: a failing receive still closes the duplicate, a
successful send still closes the duplicate, and neither closes the
connection. -/
theorem fd_c7_dup_closed_witness :
    Effect.closeDup ∈ (Get 1 [] (.ok ()) (.error (.os 4))).trace ∧
    Effect.closeConn ∉ (Get 1 [] (.ok ()) (.error (.os 4))).trace ∧
    Effect.closeDup ∈ (Put [⟨7, "w"⟩] (.ok ()) (some (.os 32))).trace ∧
    Effect.closeConn ∉ (Put [⟨7, "w"⟩] (.ok ()) (some (.os 32))).trace := by
  have h := fd_c7_dup_closed 1 [] (.ok ()) (.error (.os 4)) [⟨7, "w"⟩] (some (.os 32))
  exact ⟨h.1 rfl (by norm_num), h.2.1, h.2.2.1 rfl (List.cons_ne_nil _ _), h.2.2.2⟩

/-- Claim C8: a `via.File()` failure or a receive failure makes `Get`
return no handles and that very error (nothing else happens after it);
`Put` propagates a `via.File()` failure and the send error unchanged,
and neither operation ever performs its syscall more than once. -/
theorem fd_c8_error_propagation (num : Int) (fn : List String) (e e2 : GoError)
    (rr : Except GoError (List Nat)) (files : List Handle) (sr : Option GoError)
    (fr : Except GoError Unit) :
    (1 ≤ num → Get num fn (.error e) rr = ⟨[], some e, [.fileCall]⟩) ∧
    (1 ≤ num → Get num fn (.ok ()) (.error e) =
      ⟨[], some e,
        [.fileCall, .allocBuf (bufferSizeForCode num.toNat), .recvCall, .closeDup]⟩) ∧
    (files ≠ [] → Put files (.error e) sr = ⟨some e, [.fileCall], none⟩) ∧
    (files ≠ [] → (Put files (.ok ()) (some e2)).err = some e2) ∧
    ((Get num fn fr rr).trace).count Effect.recvCall ≤ 1 ∧
    ((Put files fr sr).trace).count Effect.sendCall ≤ 1 := by
  refine ⟨?_, ?_, ?_, ?_, get_count_recv num fn fr rr, put_count_send files fr sr⟩
  · intro h1
    unfold Get
    rw [if_neg (by omega)]
  · intro h1
    unfold Get
    rw [if_neg (by omega)]
  · intro hne
    unfold Put
    rw [if_neg fun hc => hne (List.length_eq_zero.mp hc)]
  · intro hne
    unfold Put
    rw [if_neg fun hc => hne (List.length_eq_zero.mp hc)]

/-- Witness for C8 at concrete errors. -/
theorem fd_c8_error_propagation_witness :
    Get 2 [] (.error (.os 13)) (.ok []) = ⟨[], some (.os 13), [.fileCall]⟩ ∧
    Get 2 [] (.ok ()) (.error (.os 13)) =
      ⟨[], some (.os 13),
        [.fileCall, .allocBuf (bufferSizeForCode 2), .recvCall, .closeDup]⟩ ∧
    Put [⟨9, "q"⟩] (.error (.os 13)) none = ⟨some (.os 13), [.fileCall], none⟩ ∧
    (Put [⟨9, "q"⟩] (.ok ()) (some (.os 32))).err = some (.os 32) := by
  have h := fd_c8_error_propagation 2 [] (.os 13) (.os 32) (.ok []) [⟨9, "q"⟩] none (.ok ())
  exact ⟨h.1 (by norm_num), h.2.1 (by norm_num), h.2.2.1 (List.cons_ne_nil _ _),
    h.2.2.2.1 (List.cons_ne_nil _ _)⟩

end Fd

namespace Fd

/-- Counterexample to claim C1: the naming loop (`fd.go:65-69`) indexes
`filenames` by the position *within each control message*, not by the
overall flattened position.  With two descriptors arriving in two
separate rights messages and `filenames = ["first"]`, both handles are
named `"first"`, where the claim demands the second to be `""`. -/
theorem fd_c1_counterexample :
    ((Get 8 ["first"] (.ok ()) (.ok (UnixRights [5] ++ UnixRights [6]))).files.map
        fun h => h.name) = ["first", "first"] ∧
      (["first", "first"] : List String) ≠ ["first", ""] := by
  constructor
  · rfl
  · decide

/-- Claim C1 as amended: when the buffer parses into rights messages that
all extract successfully, the `fi`-th descriptor *of each message* is
paired with `names[fi]` when present and `""` otherwise; the flattened
pairing of the original claim holds only when all descriptors arrive in
a single message. -/
theorem fd_c1_per_message_naming (num : Int) (fn : List String) (oob : List Nat)
    (msgs : List SocketControlMessage) (h1 : 1 ≤ num)
    (hp : ParseSocketControlMessage (recvBuf num oob) = .ok msgs)
    (hok : ∀ m ∈ msgs, ∃ l, ParseUnixRights m = .ok l) :
    (Get num fn (.ok ()) (.ok oob)).files =
      (msgs.map fun m => (List.range (rightsOf m).length).map fun fi =>
          Handle.mk ((rightsOf m).getD fi 0) (fn.getD fi "")).flatten := by
  rw [Get_ok_parse num fn oob msgs h1 hp, getLoop_all_ok msgs fn hok]
  show (msgs.map fun m => nameFds (rightsOf m) fn 0).flatten = _
  congr 1
  apply List.map_congr_left
  intro m hm
  rw [nameFds_eq_range]
  simp [Nat.zero_add]

/-- Witness for the amended C1 on the two-message buffer. -/
theorem fd_c1_per_message_naming_witness :
    (Get 8 ["first"] (.ok ()) (.ok (UnixRights [5] ++ UnixRights [6]))).files =
      (([⟨⟨20, 1, 1⟩, [5, 0, 0, 0]⟩, ⟨⟨20, 1, 1⟩, [6, 0, 0, 0]⟩] :
          List SocketControlMessage).map fun m =>
        (List.range (rightsOf m).length).map fun fi =>
          Handle.mk ((rightsOf m).getD fi 0) ((["first"] : List String).getD fi "")).flatten := by
  exact fd_c1_per_message_naming 8 ["first"] (UnixRights [5] ++ UnixRights [6])
    [⟨⟨20, 1, 1⟩, [5, 0, 0, 0]⟩, ⟨⟨20, 1, 1⟩, [6, 0, 0, 0]⟩] (by norm_num) (by rfl)
    (by intro m hm
        rcases List.mem_cons.mp hm with rfl | hm2
        · exact ⟨[5], rfl⟩
        · rcases List.mem_singleton.mp hm2 with rfl
          exact ⟨[6], rfl⟩)

/-- Claim C2: when extraction fails on one message, `Get` returns the
handles accumulated from the messages before it together with that
error — not an empty set, and not a nil error. -/
theorem fd_c2_partial_failure (num : Int) (fn : List String) (oob : List Nat)
    (pre post : List SocketControlMessage) (m : SocketControlMessage) (e : GoError)
    (h1 : 1 ≤ num)
    (hp : ParseSocketControlMessage (recvBuf num oob) = .ok (pre ++ m :: post))
    (hpre : ∀ m2 ∈ pre, ∃ l, ParseUnixRights m2 = .ok l)
    (hm : ParseUnixRights m = .error e) :
    (Get num fn (.ok ()) (.ok oob)).files =
      (pre.map fun m2 => nameFds (rightsOf m2) fn 0).flatten ∧
    (Get num fn (.ok ()) (.ok oob)).err = some e := by
  rw [Get_ok_parse num fn oob (pre ++ m :: post) h1 hp,
    getLoop_append_err pre m post fn e hpre hm]
  exact ⟨rfl, rfl⟩

/-- Witness for C2: a good rights message followed by a message of wrong
type yields the first message's handle plus `EINVAL`. -/
theorem fd_c2_partial_failure_witness :
    (Get 8 ["x"] (.ok ()) (.ok (UnixRights [5] ++ badTypeMsgBytes))).files =
        [⟨5, "x"⟩] ∧
      (Get 8 ["x"] (.ok ()) (.ok (UnixRights [5] ++ badTypeMsgBytes))).err =
        some .einval := by
  have h := fd_c2_partial_failure 8 ["x"] (UnixRights [5] ++ badTypeMsgBytes)
    [⟨⟨20, 1, 1⟩, [5, 0, 0, 0]⟩] [] ⟨⟨20, 1, 2⟩, [9, 0, 0, 0]⟩ .einval
    (by norm_num) (by rfl)
    (by intro m2 hm2
        rcases List.mem_singleton.mp hm2 with rfl
        exact ⟨[5], rfl⟩)
    rfl
  refine ⟨?_, h.2⟩
  rw [h.1]
  rfl

end Fd

namespace Fd

/-- Claim C4: `Put` sends exactly `UnixRights` of the given descriptors
in order; that buffer decodes to a single rights message whose extracted
descriptor list is the original one in order; and a `Get` for that count
receiving the buffer returns handles carrying those descriptors in the
same order with a nil error. -/
theorem fd_c4_roundtrip_order (files : List Handle) (fn : List String)
    (hne : files ≠ [])
    (hb : ∀ f ∈ files, 0 ≤ f.fd ∧ f.fd < 2147483648)
    (hsm : files.length ≤ 4294967296) :
    (Put files (.ok ()) none).sent = some (UnixRights (files.map fun f => f.fd)) ∧
    ParseSocketControlMessage (UnixRights (files.map fun f => f.fd)) =
      .ok [⟨⟨CmsgLen (4 * files.length), 1, 1⟩, encodeFds (files.map fun f => f.fd)⟩] ∧
    ParseUnixRights ⟨⟨CmsgLen (4 * files.length), 1, 1⟩,
        encodeFds (files.map fun f => f.fd)⟩ = .ok (files.map fun f => f.fd) ∧
    ((Get (files.length : Int) fn (.ok ())
        (.ok (UnixRights (files.map fun f => f.fd)))).files.map fun h => h.fd) =
      files.map (fun f => f.fd) ∧
    (Get (files.length : Int) fn (.ok ())
        (.ok (UnixRights (files.map fun f => f.fd)))).err = none := by
  have hn : (files.map fun f => f.fd).length = files.length := List.length_map _ _
  have hb2 : ∀ fd ∈ files.map fun f => f.fd, 0 ≤ fd ∧ fd < 2147483648 := by
    intro fd hfd
    obtain ⟨f, hf, rfl⟩ := List.mem_map.mp hfd
    exact hb f hf
  have hbound : CmsgLen (4 * (files.map fun f => f.fd).length) < 18446744073709551616 := by
    rw [hn]
    simp only [CmsgLen, cmsgAlignOf]
    omega
  have hp0 := parse_UnixRights (files.map fun f => f.fd) hbound
  rw [hn] at hp0
  have hext := PUR_encode (files.map fun f => f.fd) (CmsgLen (4 * files.length)) hb2
  have h1 : (1 : Int) ≤ (files.length : Int) := by
    have hz : files.length ≠ 0 := fun hc => hne (List.length_eq_zero.mp hc)
    omega
  have hoblen : (UnixRights (files.map fun f => f.fd)).length =
      bufferSizeForCode ((files.length : Int)).toNat := by
    rw [UnixRights_length, hn, bufferSizeForCode, Int.toNat_ofNat, Nat.mul_comm]
  have hrb : recvBuf (files.length : Int) (UnixRights (files.map fun f => f.fd)) =
      UnixRights (files.map fun f => f.fd) := recvBuf_eq _ _ hoblen
  have hp : ParseSocketControlMessage (recvBuf (files.length : Int)
      (UnixRights (files.map fun f => f.fd))) =
      .ok [⟨⟨CmsgLen (4 * files.length), 1, 1⟩,
        encodeFds (files.map fun f => f.fd)⟩] := by
    rw [hrb]
    exact hp0
  have hGet := Get_ok_parse (files.length : Int) fn
    (UnixRights (files.map fun f => f.fd))
    [⟨⟨CmsgLen (4 * files.length), 1, 1⟩, encodeFds (files.map fun f => f.fd)⟩] h1 hp
  have hloop : getLoop [⟨⟨CmsgLen (4 * files.length), 1, 1⟩,
      encodeFds (files.map fun f => f.fd)⟩] fn =
      (nameFds (files.map fun f => f.fd) fn 0, none) := by
    simp [getLoop, hext]
  refine ⟨?_, hp0, hext, ?_, ?_⟩
  · unfold Put
    rw [if_neg fun hc => hne (List.length_eq_zero.mp hc)]
  · rw [hGet, hloop]
    show (nameFds (files.map fun f => f.fd) fn 0).map (fun h => h.fd) = _
    exact nameFds_map_fd _ fn 0
  · rw [hGet, hloop]

/-- Witness for C4 with three tagged descriptors. -/
theorem fd_c4_roundtrip_order_witness :
    (Put [⟨3, "p0"⟩, ⟨4, "p1"⟩, ⟨5, "p2"⟩] (.ok ()) none).sent =
        some (UnixRights [3, 4, 5]) ∧
      ((Get 3 [] (.ok ()) (.ok (UnixRights [3, 4, 5]))).files.map fun h => h.fd) =
        [3, 4, 5] ∧
      (Get 3 [] (.ok ()) (.ok (UnixRights [3, 4, 5]))).err = none := by
  have h := fd_c4_roundtrip_order [⟨3, "p0"⟩, ⟨4, "p1"⟩, ⟨5, "p2"⟩] []
    (List.cons_ne_nil _ _) (by decide) (by norm_num)
  exact ⟨h.1, h.2.2.2.1, h.2.2.2.2⟩

set_option maxRecDepth 8192 in
/-- Counterexample to claim C9: `Get` parses its whole zero-initialised
buffer, ignoring how many ancillary bytes were delivered.  Requesting 5
descriptors (40-byte buffer) while one well-formed single-descriptor
rights message (24 bytes) arrives leaves a 16-byte zero tail that parses
as a malformed header, so `Get` returns an empty set and `EINVAL` — a
count mismatch does produce an error, contradicting the claim. -/
theorem fd_c9_counterexample :
    ParseSocketControlMessage (UnixRights [7]) =
        .ok [⟨⟨20, 1, 1⟩, [7, 0, 0, 0]⟩] ∧
      ParseUnixRights ⟨⟨20, 1, 1⟩, [7, 0, 0, 0]⟩ = .ok [7] ∧
      (Get 5 [] (.ok ()) (.ok (UnixRights [7]))).err = some .einval ∧
      (Get 5 [] (.ok ()) (.ok (UnixRights [7]))).files = [] :=
  ⟨rfl, rfl, rfl, rfl⟩

/-- Claim C9 as amended: `Get` never compares the decoded count with
`num` — whenever the (padded) buffer parses and every message extracts,
the error is nil and the number of returned handles is the total number
of decoded descriptors, whatever `num` was; but when fewer descriptors
arrive than requested, a zero tail of 16 bytes or more itself fails to
parse and yields an empty result with `EINVAL`. -/
theorem fd_c9_no_count_check (num : Int) (fn : List String) (oob : List Nat)
    (msgs : List SocketControlMessage) (h1 : 1 ≤ num)
    (hp : ParseSocketControlMessage (recvBuf num oob) = .ok msgs)
    (hok : ∀ m ∈ msgs, ∃ l, ParseUnixRights m = .ok l) :
    (Get num fn (.ok ()) (.ok oob)).err = none ∧
    (Get num fn (.ok ()) (.ok oob)).files.length =
      (msgs.map fun m => (rightsOf m).length).sum := by
  rw [Get_ok_parse num fn oob msgs h1 hp, getLoop_all_ok msgs fn hok]
  constructor
  · rfl
  · show ((msgs.map fun m => nameFds (rightsOf m) fn 0).flatten).length = _
    rw [List.length_flatten, List.map_map]
    congr 1
    apply List.map_congr_left
    intro m hm
    simp [Function.comp, nameFds_length]

/-- Witness for the amended C9: one message with one descriptor, any
`num` whose buffer it fills exactly. -/
theorem fd_c9_no_count_check_witness :
    (Get 1 [] (.ok ()) (.ok (UnixRights [7]))).err = none ∧
      (Get 1 [] (.ok ()) (.ok (UnixRights [7]))).files.length =
        (([⟨⟨20, 1, 1⟩, [7, 0, 0, 0]⟩] : List SocketControlMessage).map
          fun m => (rightsOf m).length).sum := by
  exact fd_c9_no_count_check 1 [] (UnixRights [7]) [⟨⟨20, 1, 1⟩, [7, 0, 0, 0]⟩]
    (by norm_num) (by rfl)
    (by intro m hm
        rcases List.mem_singleton.mp hm with rfl
        exact ⟨[7], rfl⟩)

/-- Claim C10: a decoded control message that is not a well-formed
socket-level rights message makes the extraction step fail with
`EINVAL`; `Get` returns the handles of the preceding messages together
with that error — the message is not skipped. -/
theorem fd_c10_nonrights_error (num : Int) (fn : List String) (oob : List Nat)
    (pre post : List SocketControlMessage) (m : SocketControlMessage)
    (h1 : 1 ≤ num)
    (hp : ParseSocketControlMessage (recvBuf num oob) = .ok (pre ++ m :: post))
    (hpre : ∀ m2 ∈ pre, ∃ l, ParseUnixRights m2 = .ok l)
    (hm : m.header.level ≠ SOL_SOCKET ∨ m.header.typ ≠ SCM_RIGHTS) :
    (Get num fn (.ok ()) (.ok oob)).files =
      (pre.map fun m2 => nameFds (rightsOf m2) fn 0).flatten ∧
    (Get num fn (.ok ()) (.ok oob)).err = some .einval := by
  rw [Get_ok_parse num fn oob (pre ++ m :: post) h1 hp,
    getLoop_append_err pre m post fn .einval hpre (PUR_nonrights m hm)]
  exact ⟨rfl, rfl⟩

/-- Witness for C10: a rights message followed by a message with a
non-socket level yields the first handle plus `EINVAL`. -/
theorem fd_c10_nonrights_error_witness :
    (Get 8 [] (.ok ()) (.ok (UnixRights [5] ++ badLevelMsgBytes))).files =
        [⟨5, ""⟩] ∧
      (Get 8 [] (.ok ()) (.ok (UnixRights [5] ++ badLevelMsgBytes))).err =
        some .einval := by
  have h := fd_c10_nonrights_error 8 [] (UnixRights [5] ++ badLevelMsgBytes)
    [⟨⟨20, 1, 1⟩, [5, 0, 0, 0]⟩] [] ⟨⟨20, 2, 1⟩, [9, 0, 0, 0]⟩
    (by norm_num) (by rfl)
    (by intro m2 hm2
        rcases List.mem_singleton.mp hm2 with rfl
        exact ⟨[5], rfl⟩)
    (by left; decide)
  refine ⟨?_, h.2⟩
  rw [h.1]
  rfl

end Fd
